import Mathlib

/-!
Verification of the users_contribution_activity program.

This file gives a shallow embedding of the core of
src/users_contribution_activity.py and proves properties of it:

* the later function (lines 78-81) and its algebra;
* the per-category activity accumulation of get_commit_activity,
  get_issue_activity and get_pr_activity (lines 206-214, 242-250, 278-286)
  over Python dicts, modelled as association lists;
* the per-repository merge loops of main (lines 336-360);
* the retry loop of run_query (lines 38-76), with Python exceptions
  modelled as Except values and sleeps recorded as a list of durations;
* the four cursor-pagination loops (get_all_org_members, get_all_repos,
  get_branches, lines 83-159);
* the CSV report rows and Active/Inactive classification of save_to_csv
  (lines 293-321), including a model of datetime.fromisoformat and of the
  replace of a "Z" zone designator by "+00:00" (line 314).

Timestamps are Python strings; Python compares strings lexicographically by
code point, and treats None and the empty string as falsy.  Both are
modelled exactly: string comparison is defined over the character list by
code point, and the falsiness checks of the source are kept.
-/

/-! ## Python string comparison, modelled by code point -/

/-- Strict comparison of two characters by code point, as Python compares
characters inside strings. -/
def charLtB (a b : Char) : Bool := a.toNat < b.toNat

/-- Strict lexicographic comparison of two character lists by code point,
the order Python uses for str. -/
def listLtB : List Char → List Char → Bool
  | [], [] => false
  | [], _ :: _ => true
  | _ :: _, [] => false
  | a :: as, b :: bs =>
    if charLtB a b then true
    else if charLtB b a then false
    else listLtB as bs

/-- Model of the Python comparison s1 < s2 on str. -/
def pyStrLt (a b : String) : Bool := listLtB a.data b.data

/-- Model of the Python comparison s1 <= s2 on str. -/
def pyStrLe (a b : String) : Bool := !(pyStrLt b a)

/-- Model of the Python builtin max on two strings: the second argument is
returned exactly when it is strictly greater. -/
def pymax (a b : String) : String := if pyStrLt a b then b else a

/-- Python falsiness of an optional string: None and the empty string are
falsy, every other string is truthy. -/
def pyFalsy : Option String → Bool
  | none => true
  | some s => s == ""

/-! ## The later function, lines 78-81 of the source

    def later(ts1, ts2):
        if not ts1: return ts2
        if not ts2: return ts1
        return max(ts1, ts2)
-/

/-- Model of later, line for line: a falsy first argument returns the
second, a falsy second argument returns the first, otherwise the Python
maximum of the two strings. -/
def later : Option String → Option String → Option String
  | none, ts2 => ts2
  | some s1, ts2 =>
    if s1 = "" then ts2
    else
      match ts2 with
      | none => some s1
      | some s2 => if s2 = "" then some s1 else some (pymax s1 s2)


/-! ## The per-category activity accumulation (shared shape of
get_commit_activity lines 206-214, get_issue_activity lines 242-250 and
get_pr_activity lines 278-286)

Python dicts keyed by login are modelled as association lists that keep
insertion order; a dict update leaves the key position unchanged and a new
key is appended. -/

/-- Value of a per-category dict entry: a running count and the latest
timestamp seen for that user, for example the commits and last_commit
fields of get_commit_activity. -/
structure CatRecord where
  count : Nat
  last : Option String
deriving DecidableEq

/-- Lookup in a Python dict modelled as an association list. -/
def alookup {α : Type} : List (String × α) → String → Option α
  | [], _ => none
  | (k, v) :: rest, u => if k = u then some v else alookup rest u

/-- Assignment d[k] = v in a Python dict modelled as an association list:
an existing key keeps its position, a new key is appended. -/
def aset {α : Type} : List (String × α) → String → α → List (String × α)
  | [], u, v => [(u, v)]
  | (k, w) :: rest, u, v => if k = u then (k, v) :: rest else (k, w) :: aset rest u v

/-- Effect of one attributed record (login, timestamp) on the per-category
dict, mirroring lines 211-214 of the source: lazily create the entry with
count zero and last set to the current timestamp, then increment the count
and advance the timestamp through later. -/
def addRecord (m : List (String × CatRecord)) (login ts : String) :
    List (String × CatRecord) :=
  let r0 := (alookup m login).getD ⟨0, some ts⟩
  aset m login ⟨r0.count + 1, later r0.last (some ts)⟩

/-- Accumulation of a list of attributed records into the per-category
dict, the body of the per-page loops of the three activity collectors. -/
def recordFold (recs : List (String × String)) : List (String × CatRecord) :=
  recs.foldl (fun m p => addRecord m p.1 p.2) []

/-- Records kept by get_commit_activity: a commit edge carries an optional
author login (line 207-209, a missing author.user is skipped) and a
committedDate. -/
def attributed (edges : List (Option String × String)) : List (String × String) :=
  edges.filterMap (fun e => e.1.map (fun l => (l, e.2)))

/-- Records kept by get_issue_activity and get_pr_activity: the author
guard also rejects an empty login (lines 243-244 and 279-280 test
author and author.get of login, an empty string being falsy). -/
def authored (nodes : List (Option String × String)) : List (String × String) :=
  nodes.filterMap (fun e =>
    match e.1 with
    | some l => if l = "" then none else some (l, e.2)
    | none => none)

/-- Per-user commit map built by get_commit_activity from the commit edges
of all pages of one branch, in order. -/
def get_commit_activity (edges : List (Option String × String)) :
    List (String × CatRecord) :=
  recordFold (attributed edges)

/-- Per-user issue map built by get_issue_activity from the issue nodes of
all pages of one repository, in order. -/
def get_issue_activity (nodes : List (Option String × String)) :
    List (String × CatRecord) :=
  recordFold (authored nodes)

/-- Per-user pull-request map built by get_pr_activity from the PR nodes
of all pages of one repository, in order. -/
def get_pr_activity (nodes : List (Option String × String)) :
    List (String × CatRecord) :=
  recordFold (authored nodes)


/-! ## The merge loops of main, lines 336-360

For each repository, main folds the per-branch commit maps, then the issue
map, then the PR map, into one summary dict per user.  The commit merge
loop (lines 336-344) is verified here; the issue and PR loops are the same
shape field for field. -/

/-- Per-user summary dict value built by main, lines 341-342: three counts
and three per-category timestamps, created with zero counts and absent
timestamps. -/
structure Summary where
  commits : Nat
  issues : Nat
  prs : Nat
  last_commit : Option String
  last_issue : Option String
  last_pr : Option String
deriving DecidableEq

/-- Fresh summary created on first merge of a user, lines 341-342. -/
def emptySummary : Summary :=
  ⟨0, 0, 0, none, none, none⟩

/-- Merge of one per-branch commit entry for one user into repo_activity,
lines 340-344: get-or-create the summary, add the branch count, advance
last_commit through later. -/
def mergeCommitEntry (acc : List (String × Summary)) (u : String) (d : CatRecord) :
    List (String × Summary) :=
  let s := (alookup acc u).getD emptySummary
  aset acc u
    { s with commits := s.commits + d.count, last_commit := later s.last_commit d.last }

/-- Merge of a whole per-branch commit map into repo_activity, the loop
over commits.items() at line 339. -/
def mergeCommitFeed (acc : List (String × Summary)) (feed : List (String × CatRecord)) :
    List (String × Summary) :=
  feed.foldl (fun a p => mergeCommitEntry a p.1 p.2) acc

/-- Commit activity of a repository: for every branch in order, collect the
branch commit map with get_commit_activity and merge it into repo_activity,
lines 336-344.  Each element of batches is the edge list of one branch. -/
def collectCommits (batches : List (List (Option String × String))) :
    List (String × Summary) :=
  batches.foldl (fun acc edges => mergeCommitFeed acc (get_commit_activity edges)) []

/-- Timestamps of the records of one user, in feed order. -/
def userTs (u : String) (recs : List (String × String)) : List String :=
  (recs.filter (fun p => p.1 = u)).map (fun p => p.2)

/-- The Python maximum of a list of strings, none for the empty list. -/
def trueMax : List String → Option String
  | [] => none
  | t :: ts => some (ts.foldl pymax t)

/-- Per-user view of one record application, lines 211-214 restricted to a
fixed login. -/
def catStep (a : Option CatRecord) (ts : String) : CatRecord :=
  let r0 := a.getD ⟨0, some ts⟩
  ⟨r0.count + 1, later r0.last (some ts)⟩

/-- Per-user view of the per-category accumulation over a timestamp list. -/
def catFold (a : Option CatRecord) (l : List String) : Option CatRecord :=
  l.foldl (fun acc t => some (catStep acc t)) a

/-- Per-user view of one commit merge step of main, lines 340-344. -/
def userMergeC (s : Option Summary) (d : CatRecord) : Summary :=
  let s0 := s.getD emptySummary
  { s0 with commits := s0.commits + d.count, last_commit := later s0.last_commit d.last }

/-- Summary of a user with commit activity only: the shape produced by the
commit merge loop before the issue and PR merges run. -/
def commitSummary (c : Nat) (m : String) : Summary :=
  { emptySummary with commits := c, last_commit := some m }

/-- Keys of an association list, in order. -/
def keys {α : Type} (m : List (String × α)) : List String :=
  m.map (fun p => p.1)

/-- Per-user view of the sequence of commit merges of main: each batch
contributes its per-user category record when present, an absent batch
leaves the summary untouched. -/
def batchFoldU (s : Option Summary) (ds : List (Option CatRecord)) : Option Summary :=
  ds.foldl
    (fun s d =>
      match d with
      | none => s
      | some d => some (userMergeC s d)) s

/-! ## The run_query retry loop, lines 38-76

One call of SESSION.post is modelled by an Outcome: an HTTP response with
a status code and the value of the data field of its JSON body, a body
that fails to parse as JSON, a connection or timeout failure, or any other
raised exception.  A run of run_query consumes a script of outcomes, one
per executed attempt.  Python exceptions are Except errors; every sleep is
recorded in a list of durations in seconds. -/

/-- A JSON object field: missing key, present with value null, or present
with a value. -/
inductive JField (α : Type) : Type where
  | absent : JField α
  | null : JField α
  | val : α → JField α
deriving DecidableEq

/-- One transport-level outcome observed by an attempt of run_query. -/
inductive Outcome (α : Type) : Type where
  | resp : Nat → JField α → Outcome α
  | badJson : Outcome α
  | netErr : Outcome α
  | otherErr : Outcome α
deriving DecidableEq

/-- Python exceptions relevant to the modelled code paths. -/
inductive PyErr : Type where
  | typeError : PyErr
  | keyError : PyErr
  | jsonError : PyErr
  | valueError : PyErr
  | netExc : PyErr
  | otherExc : PyErr
  | queryFailed : Nat → PyErr
deriving DecidableEq

/-- Control outcome of one loop iteration: return a value, or continue
with the next attempt. -/
inductive LoopStep (α : Type) : Type where
  | ret : Option α → LoopStep α
  | cont : LoopStep α
deriving DecidableEq

/-- The try block of one attempt, lines 41-60: a 200 returns the data
field (raising KeyError when the key is missing, returning None when the
field is null), a 403 sleeps 60 seconds and continues, any other status
sleeps 5 * (attempt + 1) and continues unless this is the last attempt, in
which case line 60 raises. -/
def tryBody {α : Type} (o : Outcome α) (attempt : Nat) (isLast : Bool) :
    Except PyErr (LoopStep α) × List Nat :=
  match o with
  | .resp status data =>
    if status = 200 then
      match data with
      | .val d => (.ok (.ret (some d)), [])
      | .null => (.ok (.ret none), [])
      | .absent => (.error .keyError, [])
    else if status = 403 then (.ok .cont, [60])
    else if isLast then (.error (.queryFailed status), [])
    else (.ok .cont, [5 * (attempt + 1)])
  | .badJson => (.error .jsonError, [])
  | .netErr => (.error .netExc, [])
  | .otherErr => (.error .otherExc, [])

/-- The two except clauses, lines 61-75: connection and timeout errors
sleep 5 * 2 ^ attempt and continue unless last, any other exception sleeps
5 * (attempt + 1) and continues unless last; on the last attempt both
return None. -/
def handleExc {α : Type} (e : PyErr) (attempt : Nat) (isLast : Bool) :
    LoopStep α × List Nat :=
  match e with
  | .netExc => if isLast then (.ret none, []) else (.cont, [5 * 2 ^ attempt])
  | _ => if isLast then (.ret none, []) else (.cont, [5 * (attempt + 1)])

/-- One full iteration of the attempt loop: run the try block, and feed any
raised exception to the except clauses. -/
def runIter {α : Type} (o : Outcome α) (attempt : Nat) (isLast : Bool) :
    Except PyErr (LoopStep α) × List Nat :=
  match (tryBody o attempt isLast).1 with
  | .ok st => (.ok st, (tryBody o attempt isLast).2)
  | .error e =>
    (.ok (handleExc (α := α) e attempt isLast).1,
      (tryBody o attempt isLast).2 ++ (handleExc (α := α) e attempt isLast).2)

/-- The attempt loop of run_query: remaining counts the iterations still
allowed by range(max_attempts); when it reaches zero the loop falls
through to the final return None of line 76.  An Except error in the
result would be an exception escaping run_query. -/
def runQueryGo {α : Type} : Nat → Nat → List (Outcome α) → Except PyErr (Option α) × List Nat
  | _, 0, _ => (.ok none, [])
  | _, _ + 1, [] => (.ok none, [])
  | attempt, remaining + 1, o :: rest =>
    match (runIter o attempt (remaining == 0)).1 with
    | .ok (.ret v) => (.ok v, (runIter o attempt (remaining == 0)).2)
    | .ok .cont =>
      ((runQueryGo (attempt + 1) remaining rest).1,
        (runIter o attempt (remaining == 0)).2 ++
          (runQueryGo (attempt + 1) remaining rest).2)
    | .error e => (.error e, (runIter o attempt (remaining == 0)).2)

/-- run_query on a script of outcomes with a given max_attempts. -/
def run_query {α : Type} (script : List (Outcome α)) (maxAttempts : Nat) :
    Except PyErr (Option α) × List Nat :=
  runQueryGo 0 maxAttempts script

/-- An outcome that makes an attempt return data from run_query. -/
def isSuccess {α : Type} : Outcome α → Bool
  | .resp status (.val _) => status == 200
  | _ => false

/-- A 403 response, as produced by a secondary rate limit. -/
def f403 : Outcome Nat := .resp 403 .null

/-! ## The pagination loops, lines 83-159

Each loop consumes a script with one entry per run_query call: none for a
run_query that returned None (or a falsy result), some JField.absent for a
result without the expected top-level key, some JField.null for a result
whose top-level key holds null, and some JField.val for a well-formed
page.  The cursor is threaded exactly as in the source but is opaque. -/

/-- The pageInfo object of a page. -/
structure PageInfo where
  hasNextPage : Bool
  endCursor : Option String
deriving DecidableEq

/-- One well-formed page: extracted node names and the pageInfo object. -/
structure NodePage where
  nodes : List String
  pageInfo : PageInfo
deriving DecidableEq

/-- Insertion into a Python set, modelled as a duplicate-free list. -/
def setInsert (users : List String) (x : String) : List String :=
  if x ∈ users then users else users ++ [x]

/-- users.update(logins) of line 102. -/
def setUpdate (users logins : List String) : List String :=
  logins.foldl setInsert users

/-- Loop of get_all_org_members, lines 85-107: break on a falsy result or
a missing organization key; a null organization raises TypeError at line
101 when membersWithRole is read from it. -/
def get_all_org_members_go :
    List (Option (JField NodePage)) → Option String → List String →
    Except PyErr (List String)
  | [], _, users => .ok users
  | page :: rest, _, users =>
    match page with
    | none => .ok users
    | some .absent => .ok users
    | some .null => .error .typeError
    | some (.val page) =>
      let users := setUpdate users page.nodes
      if page.pageInfo.hasNextPage then
        get_all_org_members_go rest page.pageInfo.endCursor users
      else .ok users

/-- get_all_org_members on a page script. -/
def get_all_org_members (script : List (Option (JField NodePage))) :
    Except PyErr (List String) :=
  get_all_org_members_go script none []

/-- Loop of get_all_repos, lines 111-133: same shape as the members loop
but accumulating an ordered list of repository names. -/
def get_all_repos_go :
    List (Option (JField NodePage)) → Option String → List String →
    Except PyErr (List String)
  | [], _, repos => .ok repos
  | page :: rest, _, repos =>
    match page with
    | none => .ok repos
    | some .absent => .ok repos
    | some .null => .error .typeError
    | some (.val page) =>
      let repos := repos ++ page.nodes
      if page.pageInfo.hasNextPage then
        get_all_repos_go rest page.pageInfo.endCursor repos
      else .ok repos

/-- get_all_repos on a page script. -/
def get_all_repos (script : List (Option (JField NodePage))) :
    Except PyErr (List String) :=
  get_all_repos_go script none []

/-- A well-formed script presenting a feed split into the given pages:
every page except the last has hasNextPage true and an endCursor, the last
page ends the chain. -/
def pagesScript : List (List String) → List (Option (JField NodePage))
  | [] => []
  | [l] => [some (.val ⟨l, ⟨false, none⟩⟩)]
  | l :: rest => some (.val ⟨l, ⟨true, some "cursor"⟩⟩) :: pagesScript rest

/-- Loop of get_branches, lines 137-158: break on a falsy result, missing
repository key, or null repository (line 150 checks all three), collecting
branch names. -/
def get_branches_go :
    List (Option (JField NodePage)) → Option String → List String → List String
  | [], _, branches => branches
  | page :: rest, _, branches =>
    match page with
    | none => branches
    | some .absent => branches
    | some .null => branches
    | some (.val refs) =>
      let branches := branches ++ refs.nodes
      if refs.pageInfo.hasNextPage then
        get_branches_go rest refs.pageInfo.endCursor branches
      else branches

/-- get_branches, line 159: branches or a single default entry main. -/
def get_branches (script : List (Option (JField NodePage))) : List String :=
  let branches := get_branches_go script none []
  if branches.isEmpty then ["main"] else branches

/-! ## Timestamp parsing and status classification, lines 293-321

The model covers datetime.fromisoformat on strings of the shape
YYYY-MM-DDTHH:MM:SS with an optional +HH:MM or -HH:MM offset, after line
314 replaced every Z with +00:00.  A parsed datetime is a wall-clock
reading in seconds from the epoch of its own zone plus an optional offset
in minutes; a datetime without offset is naive and cannot be compared with
the aware cutoff (Python raises TypeError). -/

/-- Split of a character list at every occurrence of a separator, as the
string split used to model parsing. -/
def splitOnChar (c : Char) : List Char → List (List Char)
  | [] => [[]]
  | x :: xs =>
    let r := splitOnChar c xs
    if x = c then [] :: r
    else
      match r with
      | [] => [[x]]
      | h :: t => (x :: h) :: t

/-- Decimal value of one digit character. -/
def digitVal (c : Char) : Option Nat :=
  if 48 ≤ c.toNat ∧ c.toNat ≤ 57 then some (c.toNat - 48) else none

/-- Decimal reading of a digit list, none on a non-digit. -/
def digitsToNatAux : List Char → Nat → Option Nat
  | [], acc => some acc
  | c :: cs, acc =>
    match digitVal c with
    | none => none
    | some d => digitsToNatAux cs (acc * 10 + d)

/-- Decimal reading of a nonempty digit list. -/
def digitsToNat : List Char → Option Nat
  | [] => none
  | l => digitsToNatAux l 0

/-- Model of last_activity.replace of line 314: every Z character is
replaced by the six characters +00:00. -/
def replaceZ (s : String) : String :=
  String.mk (s.data.flatMap (fun c => if c = 'Z' then "+00:00".data else [c]))

/-- A parsed Python datetime: wall-clock seconds from the epoch in its own
zone, and an optional zone offset in minutes (none means naive). -/
structure PyDateTime where
  naiveSeconds : Int
  offsetMinutes : Option Int
deriving DecidableEq

/-- Days from the epoch 1970-01-01 of a civil date, for years from 1. -/
def daysFromCivil (y mo d : Nat) : Int :=
  let yAdj := if mo ≤ 2 then y - 1 else y
  let era := yAdj / 400
  let yoe := yAdj - era * 400
  let mp := (mo + 9) % 12
  let doy := (153 * mp + 2) / 5 + (d - 1)
  let doe := yoe * 365 + yoe / 4 - yoe / 100 + doy
  ((era * 146097 + doe : Nat) : Int) - 719468

/-- Split of the time part of an ISO string into wall-clock time and an
optional signed offset text. -/
def splitOffsetChars (t : List Char) : List Char × Option (Bool × List Char) :=
  match splitOnChar '+' t with
  | [a, b] => (a, some (true, b))
  | _ =>
    match splitOnChar '-' t with
    | [a, b] => (a, some (false, b))
    | _ => (t, none)

/-- Reading of the date part YYYY-MM-DD. -/
def parseDateChars (l : List Char) : Option (Nat × Nat × Nat) :=
  match splitOnChar '-' l with
  | [y, mo, d] =>
    match digitsToNat y, digitsToNat mo, digitsToNat d with
    | some yn, some mn, some dn => some (yn, mn, dn)
    | _, _, _ => none
  | _ => none

/-- Reading of the wall-clock part HH:MM:SS. -/
def parseTimeChars (l : List Char) : Option (Nat × Nat × Nat) :=
  match splitOnChar ':' l with
  | [h, mi, s] =>
    match digitsToNat h, digitsToNat mi, digitsToNat s with
    | some hn, some mn, some sn => some (hn, mn, sn)
    | _, _, _ => none
  | _ => none

/-- Reading of the offset part HH:MM with its sign, in minutes. -/
def parseOffsetChars (sgn : Bool) (l : List Char) : Option Int :=
  match splitOnChar ':' l with
  | [oh, om] =>
    match digitsToNat oh, digitsToNat om with
    | some h, some m => some ((if sgn then 1 else -1) * (h * 60 + m))
    | _, _ => none
  | _ => none

/-- Model of datetime.fromisoformat for the shapes the program feeds it:
none models a raised ValueError on malformed input. -/
def fromisoformat (s : String) : Option PyDateTime :=
  match splitOnChar 'T' s.data with
  | [ds, ts] =>
    match parseDateChars ds with
    | none => none
    | some (y, mo, d) =>
      let tp := splitOffsetChars ts
      match parseTimeChars tp.1 with
      | none => none
      | some (h, mi, sec) =>
        if 1 ≤ y ∧ 1 ≤ mo ∧ mo ≤ 12 ∧ 1 ≤ d ∧ d ≤ 31 ∧ h ≤ 23 ∧ mi ≤ 59 ∧ sec ≤ 59 then
          let naive := daysFromCivil y mo d * 86400 + ((h * 3600 + mi * 60 + sec : Nat) : Int)
          match tp.2 with
          | none => some ⟨naive, none⟩
          | some (sgn, oc) =>
            match parseOffsetChars sgn oc with
            | none => none
            | some om => some ⟨naive, some om⟩
        else none
  | _ => none

/-- Absolute instant of an aware datetime in seconds from the epoch UTC;
none for a naive datetime. -/
def toInstant (dt : PyDateTime) : Option Int :=
  match dt.offsetMinutes with
  | none => none
  | some off => some (dt.naiveSeconds - off * 60)

/-- The cutoff of save_to_csv line 296: now minus the threshold in days,
as an absolute instant. -/
def cutoffOf (now : Int) (thresholdDays : Nat) : Int :=
  now - thresholdDays * 86400

/-- Classification of one overall last-activity value, lines 313-318: a
falsy value gives N/A and Inactive; otherwise the value is parsed after
the Z replacement and compared with the cutoff, Active exactly when the
instant is at or after the cutoff.  A parse failure is the ValueError of
fromisoformat; a naive result makes the comparison raise TypeError. -/
def classifyRow (cutoff : Int) : Option String → Except PyErr (String × String)
  | none => .ok ("N/A", "Inactive")
  | some la =>
    if la = "" then .ok ("N/A", "Inactive")
    else
      match fromisoformat (replaceZ la) with
      | none => .error .valueError
      | some dt =>
        match toInstant dt with
        | none => .error .typeError
        | some i => .ok (la, if cutoff ≤ i then "Active" else "Inactive")

/-! ## Report rows of save_to_csv, lines 300-321 -/

/-- One CSV data row: username, the three counts, the printed last
activity and the status. -/
structure Row where
  user : String
  commits : Nat
  issues : Nat
  prs : Nat
  lastActivity : String
  status : String
deriving DecidableEq

/-- Construction of the row of one user, lines 304-320: missing dict
entries default to zero counts and absent timestamps, the overall last
activity is the later of the three category timestamps. -/
def mkRow (cutoff : Int) (activity : List (String × Summary)) (u : String) :
    Except PyErr Row :=
  let s := alookup activity u
  let commits := match s with | none => 0 | some v => v.commits
  let issues := match s with | none => 0 | some v => v.issues
  let prs := match s with | none => 0 | some v => v.prs
  let last_commit := match s with | none => none | some v => v.last_commit
  let last_issue := match s with | none => none | some v => v.last_issue
  let last_pr := match s with | none => none | some v => v.last_pr
  let last_activity := later (later last_commit last_issue) last_pr
  match classifyRow cutoff last_activity with
  | .error e => .error e
  | .ok r => .ok ⟨u, commits, issues, prs, r.1, r.2⟩

/-- The row loop over the sorted roster, one row per member in order; a
raised exception aborts the whole loop as in Python. -/
def rowsFor (cutoff : Int) (activity : List (String × Summary)) :
    List String → Except PyErr (List Row)
  | [] => .ok []
  | u :: rest =>
    match mkRow cutoff activity u with
    | .error e => .error e
    | .ok r =>
      match rowsFor cutoff activity rest with
      | .error e => .error e
      | .ok rs => .ok (r :: rs)

/-- Data rows of one repository, lines 303-320: the roster is iterated in
the sorted order of Python sorted, which for distinct strings is the
unique ascending arrangement, modelled by insertion sort under the Python
string order. -/
def save_rows (cutoff : Int) (activity : List (String × Summary)) (roster : List String) :
    Except PyErr (List Row) :=
  rowsFor cutoff activity (List.insertionSort (fun a b => pyStrLe a b = true) roster)


/-! ## Lemmas: the comparison model and later -/

theorem charLtB_irrefl (a : Char) : charLtB a a = false := by
  simp [charLtB]

theorem charLtB_asymm {a b : Char} (h : charLtB a b = true) : charLtB b a = false := by
  simp only [charLtB, decide_eq_true_eq, decide_eq_false_iff_not] at h ⊢
  omega

theorem charLtB_trans {a b c : Char} (h₁ : charLtB a b = true) (h₂ : charLtB b c = true) :
    charLtB a c = true := by
  simp only [charLtB, decide_eq_true_eq] at h₁ h₂ ⊢
  omega

theorem charLtB_connex {a b : Char} (h₁ : charLtB a b = false) (h₂ : charLtB b a = false) :
    a = b := by
  simp only [charLtB, decide_eq_false_iff_not] at h₁ h₂
  have h : a.toNat = b.toNat := by omega
  exact Char.ext (UInt32.ext h)

theorem listLtB_irrefl : ∀ l : List Char, listLtB l l = false
  | [] => rfl
  | a :: as => by
    simp [listLtB, charLtB_irrefl, listLtB_irrefl as]

theorem listLtB_trans : ∀ {a b c : List Char},
    listLtB a b = true → listLtB b c = true → listLtB a c = true
  | [], [], _, h₁, _ => by simp [listLtB] at h₁
  | _ :: _, [], _, h₁, _ => by simp [listLtB] at h₁
  | [], _ :: _, [], _, h₂ => by simp [listLtB] at h₂
  | _ :: _, _ :: _, [], _, h₂ => by simp [listLtB] at h₂
  | [], _ :: _, _ :: _, _, _ => rfl
  | a :: as, b :: bs, c :: cs, h₁, h₂ => by
    simp only [listLtB] at h₁ h₂ ⊢
    by_cases hab : charLtB a b = true
    · by_cases hbc : charLtB b c = true
      · simp [charLtB_trans hab hbc]
      · replace hbc := eq_false_of_ne_true hbc
        simp only [hbc, Bool.false_eq_true, if_false] at h₂
        by_cases hcb : charLtB c b = true
        · simp [hcb] at h₂
        · replace hcb := eq_false_of_ne_true hcb
          obtain rfl : b = c := charLtB_connex hbc hcb
          simp [hab]
    · replace hab := eq_false_of_ne_true hab
      simp only [hab, Bool.false_eq_true, if_false] at h₁
      by_cases hba : charLtB b a = true
      · simp [hba] at h₁
      · replace hba := eq_false_of_ne_true hba
        obtain rfl : a = b := charLtB_connex hab hba
        simp only [hba, Bool.false_eq_true, if_false] at h₁
        by_cases hac : charLtB a c = true
        · simp [hac]
        · replace hac := eq_false_of_ne_true hac
          simp only [hac, Bool.false_eq_true, if_false] at h₂ ⊢
          by_cases hca : charLtB c a = true
          · simp [hca] at h₂
          · replace hca := eq_false_of_ne_true hca
            simp only [hca, Bool.false_eq_true, if_false] at h₂ ⊢
            exact listLtB_trans h₁ h₂

theorem listLtB_asymm : ∀ {a b : List Char}, listLtB a b = true → listLtB b a = false
  | [], [], h => by simp [listLtB] at h
  | [], _ :: _, _ => rfl
  | _ :: _, [], h => by simp [listLtB] at h
  | a :: as, b :: bs, h => by
    simp only [listLtB] at h ⊢
    by_cases hab : charLtB a b = true
    · simp [charLtB_asymm hab, hab]
    · replace hab := eq_false_of_ne_true hab
      simp only [hab, Bool.false_eq_true, if_false] at h
      by_cases hba : charLtB b a = true
      · simp [hba] at h
      · replace hba := eq_false_of_ne_true hba
        simp only [hba, Bool.false_eq_true, if_false] at h ⊢
        simp only [hab, Bool.false_eq_true, if_false]
        exact listLtB_asymm h

theorem listLtB_connex : ∀ {a b : List Char},
    listLtB a b = false → listLtB b a = false → a = b
  | [], [], _, _ => rfl
  | [], _ :: _, h₁, _ => by simp [listLtB] at h₁
  | _ :: _, [], _, h₂ => by simp [listLtB] at h₂
  | a :: as, b :: bs, h₁, h₂ => by
    simp only [listLtB] at h₁ h₂
    by_cases hab : charLtB a b = true
    · simp [hab] at h₁
    · replace hab := eq_false_of_ne_true hab
      by_cases hba : charLtB b a = true
      · simp [hba] at h₂
      · replace hba := eq_false_of_ne_true hba
        obtain rfl : a = b := charLtB_connex hab hba
        simp only [hab, hba, Bool.false_eq_true, if_false] at h₁ h₂
        rw [listLtB_connex h₁ h₂]

theorem string_data_inj {a b : String} (h : a.data = b.data) : a = b := by
  cases a; cases b; exact congrArg String.mk h

theorem pyStrLt_irrefl (a : String) : pyStrLt a a = false :=
  listLtB_irrefl a.data

theorem pyStrLt_asymm {a b : String} (h : pyStrLt a b = true) : pyStrLt b a = false :=
  listLtB_asymm h

theorem pyStrLt_trans {a b c : String} (h₁ : pyStrLt a b = true) (h₂ : pyStrLt b c = true) :
    pyStrLt a c = true :=
  listLtB_trans h₁ h₂

theorem pyStrLt_connex {a b : String} (h₁ : pyStrLt a b = false) (h₂ : pyStrLt b a = false) :
    a = b :=
  string_data_inj (listLtB_connex h₁ h₂)

theorem pymax_self (a : String) : pymax a a = a := by
  simp [pymax, pyStrLt_irrefl]

theorem pymax_comm (a b : String) : pymax a b = pymax b a := by
  by_cases hab : pyStrLt a b = true
  · simp [pymax, hab, pyStrLt_asymm hab]
  · replace hab := eq_false_of_ne_true hab
    by_cases hba : pyStrLt b a = true
    · simp [pymax, hab, hba]
    · replace hba := eq_false_of_ne_true hba
      simp [pymax, hab, hba, pyStrLt_connex hba hab]

theorem pymax_cases (a b : String) : pymax a b = a ∨ pymax a b = b := by
  by_cases h : pyStrLt a b = true
  · right; simp [pymax, h]
  · left; simp [pymax, eq_false_of_ne_true h]

theorem pymax_assoc (a b c : String) : pymax (pymax a b) c = pymax a (pymax b c) := by
  by_cases hab : pyStrLt a b = true
  · by_cases hbc : pyStrLt b c = true
    · simp [pymax, hab, hbc, pyStrLt_trans hab hbc]
    · replace hbc := eq_false_of_ne_true hbc
      simp [pymax, hab, hbc]
  · replace hab := eq_false_of_ne_true hab
    by_cases hbc : pyStrLt b c = true
    · simp [pymax, hab, hbc]
    · replace hbc := eq_false_of_ne_true hbc
      have hac : pyStrLt a c = false := by
        by_cases hac : pyStrLt a c = true
        · exfalso
          by_cases hba : pyStrLt b a = true
          · have h := pyStrLt_trans hba hac
            rw [h] at hbc; cases hbc
          · replace hba := eq_false_of_ne_true hba
            obtain rfl : a = b := pyStrLt_connex hab hba
            rw [hac] at hbc; cases hbc
        · exact eq_false_of_ne_true hac
      simp [pymax, hab, hbc, hac]

theorem pyStrLe_left_pymax (a b : String) : pyStrLe a (pymax a b) = true := by
  by_cases h : pyStrLt a b = true
  · simp [pymax, pyStrLe, h, pyStrLt_asymm h]
  · simp [pymax, pyStrLe, eq_false_of_ne_true h, pyStrLt_irrefl]

theorem pyStrLe_right_pymax (a b : String) : pyStrLe b (pymax a b) = true := by
  rw [pymax_comm]
  exact pyStrLe_left_pymax b a

theorem pyStrLe_trans {a b c : String} (h₁ : pyStrLe a b = true) (h₂ : pyStrLe b c = true) :
    pyStrLe a c = true := by
  simp only [pyStrLe, Bool.not_eq_true'] at h₁ h₂ ⊢
  by_cases hca : pyStrLt c a = true
  · exfalso
    by_cases hbc : pyStrLt b c = true
    · have h := pyStrLt_trans hbc hca
      rw [h] at h₁; cases h₁
    · replace hbc := eq_false_of_ne_true hbc
      obtain rfl : b = c := pyStrLt_connex hbc h₂
      rw [hca] at h₁; cases h₁
  · exact eq_false_of_ne_true hca

theorem pymax_empty_left (s : String) : pymax "" s = s := by
  cases s with
  | mk data =>
    cases data with
    | nil => rfl
    | cons c cs => rfl

theorem pymax_empty_right (s : String) : pymax s "" = s := by
  rw [pymax_comm]; exact pymax_empty_left s

/-! ## Lemmas about later -/

theorem later_none_left (x : Option String) : later none x = x := rfl

theorem later_some_some (a b : String) : later (some a) (some b) = some (pymax a b) := by
  by_cases ha : a = ""
  · subst ha
    simp [later, pymax_empty_left]
  · by_cases hb : b = ""
    · subst hb
      simp [later, ha, pymax_empty_right]
    · simp [later, ha, hb]

theorem later_isSome_right (x : Option String) (t : String) :
    (later x (some t)).isSome = true := by
  rcases x with _ | s
  · rfl
  · by_cases hs : s = ""
    · simp [later, hs]
    · by_cases ht : t = "" <;> simp [later, hs, ht]

theorem pyFalsy_later {a b : Option String} (ha : pyFalsy a = true) : later a b = b := by
  rcases a with _ | s
  · rfl
  · simp only [pyFalsy, beq_iff_eq] at ha
    simp [later, ha]

theorem later_falsy_right {a b : Option String} (ha : pyFalsy a = false)
    (hb : pyFalsy b = true) : later a b = a := by
  rcases a with _ | s
  · simp [pyFalsy] at ha
  · simp only [pyFalsy, beq_eq_false_iff_ne, ne_eq] at ha
    rcases b with _ | t
    · simp [later, ha]
    · simp only [pyFalsy, beq_iff_eq] at hb
      simp [later, ha, hb]

theorem later_not_falsy {a b : Option String} (ha : pyFalsy a = false)
    (hb : pyFalsy b = false) :
    ∃ sa sb, a = some sa ∧ b = some sb ∧ later a b = some (pymax sa sb) := by
  rcases a with _ | sa
  · cases ha
  · rcases b with _ | sb
    · cases hb
    · exact ⟨sa, sb, rfl, rfl, later_some_some sa sb⟩

theorem pymax_not_empty {a b : String} (ha : a ≠ "") (hb : b ≠ "") : pymax a b ≠ "" := by
  rcases pymax_cases a b with h | h <;> rw [h] <;> assumption

theorem later_assoc (a b c : Option String) :
    later (later a b) c = later a (later b c) := by
  by_cases ha : pyFalsy a = true
  · rw [pyFalsy_later ha, pyFalsy_later ha]
  · replace ha := eq_false_of_ne_true ha
    by_cases hb : pyFalsy b = true
    · rw [pyFalsy_later hb, later_falsy_right ha hb]
    · replace hb := eq_false_of_ne_true hb
      obtain ⟨sa, sb, rfl, rfl, hab⟩ := later_not_falsy ha hb
      simp only [pyFalsy, beq_eq_false_iff_ne, ne_eq] at ha hb
      have hmax : pymax sa sb ≠ "" := pymax_not_empty ha hb
      have habF : pyFalsy (later (some sa) (some sb)) = false := by
        rw [hab]
        simp [pyFalsy, hmax]
      have hbF : pyFalsy (some sb) = false := by
        simp [pyFalsy, hb]
      by_cases hc : pyFalsy c = true
      · rw [later_falsy_right habF hc, later_falsy_right hbF hc, hab]
      · replace hc := eq_false_of_ne_true hc
        obtain ⟨sb₂, sc, hb₂, rfl, hbc⟩ := later_not_falsy hbF hc
        injection hb₂ with hb₂
        subst hb₂
        rw [hab, hbc, later_some_some, later_some_some, pymax_assoc]
/-! ## Claim C2: the algebra of later -/

/-- C2 counterexample: Python falsiness makes later treat the empty string
as absent, so later of some empty string and none is none, not the
identity, and later is not commutative between none and the empty
string. -/
theorem later_empty_string_counterexample :
    later (some "") none = none ∧
    later none (some "") = some "" ∧
    later (some "") none ≠ later none (some "") ∧
    later (some "") none ≠ some "" := by
  refine ⟨rfl, rfl, ?_, ?_⟩ <;> decide

/-- C2 (amended): later is an absence-tolerant maximum once the empty
string counts as absent: none and none give none; none is neutral on every
nonempty timestamp; later is commutative whenever neither argument is the
some of the empty string; and later is associative unconditionally, so
merge order never affects the final timestamp. -/
theorem later_amended_algebra :
    later none none = none ∧
    (∀ t : String, t ≠ "" →
      later (some t) none = some t ∧ later none (some t) = some t) ∧
    (∀ a b : Option String, a ≠ some "" → b ≠ some "" → later a b = later b a) ∧
    (∀ a b c : Option String, later (later a b) c = later a (later b c)) := by
  refine ⟨rfl, ?_, ?_, later_assoc⟩
  · intro t ht
    constructor <;> simp [later, ht]
  · intro a b ha hb
    rcases a with _ | sa
    · rcases b with _ | sb
      · rfl
      · have hsb : sb ≠ "" := fun h => hb (by rw [h])
        simp [later, hsb]
    · have hsa : sa ≠ "" := fun h => ha (by rw [h])
      rcases b with _ | sb
      · simp [later, hsa]
      · have hsb : sb ≠ "" := fun h => hb (by rw [h])
        rw [later_some_some, later_some_some, pymax_comm]

/-- Witness for the amended C2 theorem at concrete timestamps. -/
theorem later_amended_algebra_witness :
    later (some "a") none = some "a" ∧
    later (some "a") (some "b") = later (some "b") (some "a") :=
  ⟨(later_amended_algebra.2.1 "a" (by decide)).1,
   later_amended_algebra.2.2.1 (some "a") (some "b") (by decide) (by decide)⟩

/-! ## Claim C8: the branch fallback -/

/-- C8: when the collected branch list is empty, get_branches returns
exactly the single default entry main, and get_branches never returns an
empty list. -/
theorem branch_fallback (script : List (Option (JField NodePage))) :
    (get_branches_go script none [] = [] → get_branches script = ["main"]) ∧
    get_branches script ≠ [] := by
  constructor
  · intro h
    simp [get_branches, h]
  · unfold get_branches
    cases h : get_branches_go script none [] with
    | nil => simp
    | cons a l => simp

/-- Witness: a single page reporting zero branches yields exactly the
default entry. -/
theorem branch_fallback_witness :
    get_branches_go [some (JField.val ⟨[], ⟨false, none⟩⟩)] none [] = [] ∧
    get_branches [some (JField.val ⟨[], ⟨false, none⟩⟩)] = ["main"] :=
  ⟨rfl, (branch_fallback [some (JField.val ⟨[], ⟨false, none⟩⟩)]).1 rfl⟩

/-! ## Claim C6: early pagination termination -/

/-- C6: a failed transport call (none) does stop the members loop with the
partial result, but a page whose organization key is present with value
null makes get_all_org_members raise TypeError at line 101 instead of
stopping with the accumulated partial result. -/
theorem members_null_page_raises :
    get_all_org_members
      [some (JField.val ⟨["alice"], ⟨true, some "c1"⟩⟩), none] =
      Except.ok ["alice"] ∧
    get_all_org_members
      [some (JField.val ⟨["alice"], ⟨true, some "c1"⟩⟩), some JField.null] =
      Except.error PyErr.typeError :=
  ⟨rfl, rfl⟩

/-! ## Claim C7: page-split independence of pagination -/

theorem get_all_repos_go_pagesScript :
    ∀ (ps : List (List String)) (cursor : Option String) (acc : List String),
      get_all_repos_go (pagesScript ps) cursor acc = Except.ok (acc ++ ps.flatten)
  | [], cursor, acc => by simp [pagesScript, get_all_repos_go]
  | [l], cursor, acc => by simp [pagesScript, get_all_repos_go]
  | l :: l2 :: rest, cursor, acc => by
    simp only [pagesScript, get_all_repos_go]
    rw [get_all_repos_go_pagesScript (l2 :: rest) (some "cursor") (acc ++ l)]
    simp

/-- C7: collecting a feed is independent of how it is split into pages:
two splits with the same concatenation collect the same result, namely the
concatenation of all pages in order. -/
theorem pagination_page_split_independent (ps qs : List (List String))
    (h : ps.flatten = qs.flatten) :
    get_all_repos (pagesScript ps) = get_all_repos (pagesScript qs) ∧
    get_all_repos (pagesScript ps) = Except.ok ps.flatten := by
  constructor
  · unfold get_all_repos
    rw [get_all_repos_go_pagesScript, get_all_repos_go_pagesScript, h]
  · unfold get_all_repos
    rw [get_all_repos_go_pagesScript]
    simp

/-- Witness: one page of three items against two pages of one and two
items. -/
theorem pagination_page_split_independent_witness :
    List.flatten [["a", "b", "c"]] = List.flatten [["a"], ["b", "c"]] ∧
    get_all_repos (pagesScript [["a", "b", "c"]]) =
      get_all_repos (pagesScript [["a"], ["b", "c"]]) ∧
    get_all_repos (pagesScript [["a", "b", "c"]]) =
      Except.ok (List.flatten [["a", "b", "c"]]) :=
  ⟨by decide,
   (pagination_page_split_independent [["a", "b", "c"]] [["a"], ["b", "c"]] (by decide)).1,
   (pagination_page_split_independent [["a", "b", "c"]] [["a"], ["b", "c"]] (by decide)).2⟩

/-! ## Claims C5 and C4: the run_query retry loop -/

theorem runIter_isOk {α : Type} (o : Outcome α) (attempt : Nat) (isLast : Bool) :
    ∃ st sl, runIter o attempt isLast = (Except.ok st, sl) := by
  unfold runIter
  cases h : (tryBody o attempt isLast).1 with
  | ok st => exact ⟨st, (tryBody o attempt isLast).2, rfl⟩
  | error e =>
    exact ⟨(handleExc (α := α) e attempt isLast).1,
      (tryBody o attempt isLast).2 ++ (handleExc (α := α) e attempt isLast).2, rfl⟩

theorem run_query_go_isOk {α : Type} :
    ∀ (remaining attempt : Nat) (script : List (Outcome α)),
      ∃ v, (runQueryGo attempt remaining script).1 = Except.ok v
  | 0, _, _ => ⟨none, rfl⟩
  | _ + 1, _, [] => ⟨none, rfl⟩
  | remaining + 1, attempt, o :: rest => by
    obtain ⟨st, sl, h⟩ := runIter_isOk o attempt (remaining == 0)
    have h1 : (runIter o attempt (remaining == 0)).1 = Except.ok st := by rw [h]
    cases st with
    | ret v => exact ⟨v, by simp [runQueryGo, h1]⟩
    | cont =>
      obtain ⟨v, ih⟩ := run_query_go_isOk remaining (attempt + 1) rest
      exact ⟨v, by simp [runQueryGo, h1, ih]⟩

theorem runIter_not_success {α : Type} (o : Outcome α) (attempt : Nat) (isLast : Bool)
    (h : isSuccess o = false) :
    (runIter o attempt isLast).1 = Except.ok (LoopStep.ret (none : Option α)) ∨
    (runIter o attempt isLast).1 = Except.ok LoopStep.cont := by
  cases o with
  | resp status data =>
    cases data with
    | val d =>
      have hs : status ≠ 200 := by
        simp only [isSuccess, beq_eq_false_iff_ne, ne_eq] at h
        exact h
      by_cases h403 : status = 403
      · right; simp [runIter, tryBody, hs, h403]
      · cases isLast
        · right; simp [runIter, tryBody, hs, h403]
        · left; simp [runIter, tryBody, handleExc, hs, h403]
    | null =>
      by_cases h200 : status = 200
      · left; simp [runIter, tryBody, h200]
      · by_cases h403 : status = 403
        · right; simp [runIter, tryBody, h200, h403]
        · cases isLast
          · right; simp [runIter, tryBody, h200, h403]
          · left; simp [runIter, tryBody, handleExc, h200, h403]
    | absent =>
      by_cases h200 : status = 200
      · cases isLast
        · right; simp [runIter, tryBody, handleExc, h200]
        · left; simp [runIter, tryBody, handleExc, h200]
      · by_cases h403 : status = 403
        · right; simp [runIter, tryBody, h200, h403]
        · cases isLast
          · right; simp [runIter, tryBody, handleExc, h200, h403]
          · left; simp [runIter, tryBody, handleExc, h200, h403]
  | badJson =>
    cases isLast
    · right; simp [runIter, tryBody, handleExc]
    · left; simp [runIter, tryBody, handleExc]
  | netErr =>
    cases isLast
    · right; simp [runIter, tryBody, handleExc]
    · left; simp [runIter, tryBody, handleExc]
  | otherErr =>
    cases isLast
    · right; simp [runIter, tryBody, handleExc]
    · left; simp [runIter, tryBody, handleExc]

theorem run_query_go_none {α : Type} :
    ∀ (remaining attempt : Nat) (script : List (Outcome α)),
      (∀ o ∈ script, isSuccess o = false) →
      (runQueryGo attempt remaining script).1 = Except.ok none
  | 0, _, _, _ => rfl
  | _ + 1, _, [], _ => rfl
  | remaining + 1, attempt, o :: rest, h => by
    rcases runIter_not_success o attempt (remaining == 0)
        (h o (List.mem_cons_self o rest)) with h1 | h1
    · simp [runQueryGo, h1]
    · have ih := run_query_go_none remaining (attempt + 1) rest
        (fun x hx => h x (List.mem_cons_of_mem o hx))
      simp [runQueryGo, h1, ih]

/-- C5: run_query never lets an exception escape: its result is always an
ordinary return value, and when no attempt of the script succeeds
(including the non-200 path whose line 60 raise is swallowed by the
generic handler) the result is the explicit no-data value None. -/
theorem run_query_no_exception {α : Type} (script : List (Outcome α)) (maxAttempts : Nat) :
    (∃ v, (run_query script maxAttempts).1 = Except.ok v) ∧
    ((∀ o ∈ script, isSuccess o = false) →
      (run_query script maxAttempts).1 = Except.ok none) :=
  ⟨run_query_go_isOk maxAttempts 0 script,
   fun h => run_query_go_none maxAttempts 0 script h⟩

/-- Witness: a connection error, a 500 and an unexpected exception exhaust
a budget of three attempts and run_query returns None, not an error. -/
theorem run_query_no_exception_witness :
    (∀ o ∈ ([Outcome.netErr, Outcome.resp 500 JField.null, Outcome.otherErr] :
        List (Outcome Nat)), isSuccess o = false) ∧
    (run_query ([Outcome.netErr, Outcome.resp 500 JField.null, Outcome.otherErr] :
        List (Outcome Nat)) 3).1 = Except.ok none :=
  ⟨by decide,
   (run_query_no_exception
      ([Outcome.netErr, Outcome.resp 500 JField.null, Outcome.otherErr] :
        List (Outcome Nat)) 3).2 (by decide)⟩

/-- C4 counterexample: three 403 responses followed by a successful 200
exhaust a budget of three attempts, so run_query returns None and not the
successful result, after sleeping the fixed 60 second cooldown three
times; a 403 therefore does consume the attempt budget. -/
theorem run_query_403_counterexample :
    run_query [f403, f403, f403, Outcome.resp 200 (JField.val 7)] 3 =
      (Except.ok none, [60, 60, 60]) ∧
    (run_query [f403, f403, f403, Outcome.resp 200 (JField.val 7)] 3).1 ≠
      Except.ok (some 7) := by
  have h0 : run_query [f403, f403, f403, Outcome.resp 200 (JField.val 7)] 3 =
      (Except.ok none, [60, 60, 60]) := rfl
  refine ⟨h0, ?_⟩
  rw [h0]
  simp

theorem run_query_go_403 (d : Nat) :
    ∀ (k attempt remaining : Nat) (rest : List (Outcome Nat)), k < remaining →
      runQueryGo attempt remaining
          (List.replicate k f403 ++ Outcome.resp 200 (JField.val d) :: rest) =
        (Except.ok (some d), List.replicate k 60)
  | 0, attempt, remaining, rest, hk => by
    cases remaining with
    | zero => omega
    | succ r =>
      simp [runQueryGo, runIter, tryBody, f403]
  | k + 1, attempt, remaining, rest, hk => by
    cases remaining with
    | zero => omega
    | succ r =>
      have ih := run_query_go_403 d k (attempt + 1) r rest (by omega)
      have h60 : runIter (α := Nat) f403 attempt (r == 0) =
          (Except.ok LoopStep.cont, [60]) := rfl
      have hstep : runQueryGo attempt (r + 1)
          (f403 :: (List.replicate k f403 ++ Outcome.resp 200 (JField.val d) :: rest)) =
          ((runQueryGo (attempt + 1) r
              (List.replicate k f403 ++ Outcome.resp 200 (JField.val d) :: rest)).1,
            [60] ++ (runQueryGo (attempt + 1) r
              (List.replicate k f403 ++ Outcome.resp 200 (JField.val d) :: rest)).2) := by
        simp [runQueryGo, h60]
      rw [List.replicate_succ, List.cons_append, hstep, ih]
      simp [List.replicate_succ]

/-- C4 (amended): on a 403 the transport sleeps the fixed 60 second
cooldown and retries, but the retry consumes an attempt of the bounded
budget; a run of k 403 responses followed by a 200 success returns the
successful result exactly when k is smaller than max_attempts, and the
recorded sleeps are k cooldowns of 60 seconds. -/
theorem run_query_403_consumes_budget (k maxAttempts d : Nat)
    (rest : List (Outcome Nat)) (h : k < maxAttempts) :
    run_query (List.replicate k f403 ++ Outcome.resp 200 (JField.val d) :: rest)
        maxAttempts =
      (Except.ok (some d), List.replicate k 60) :=
  run_query_go_403 d k 0 maxAttempts rest h

/-- Witness: two 403 cooldowns inside a budget of three attempts still
reach the successful response. -/
theorem run_query_403_consumes_budget_witness :
    2 < 3 ∧
    run_query (List.replicate 2 f403 ++ Outcome.resp 200 (JField.val 7) :: []) 3 =
      (Except.ok (some 7), List.replicate 2 60) :=
  ⟨by decide, run_query_403_consumes_budget 2 3 7 [] (by decide)⟩

/-! ## Association list lemmas -/

theorem alookup_aset {α : Type} :
    ∀ (m : List (String × α)) (u : String) (v : α) (w : String),
      alookup (aset m u v) w = if u = w then some v else alookup m w
  | [], u, v, w => by
    by_cases h : u = w <;> simp [aset, alookup, h]
  | (k, x) :: rest, u, v, w => by
    by_cases hk : k = u
    · subst hk
      by_cases hw : k = w <;> simp [aset, alookup, hw]
    · by_cases hw : k = w
      · subst hw
        have hne : u ≠ k := fun h => hk h.symm
        simp [aset, alookup, hk, hne]
      · simp [aset, alookup, hk, hw, alookup_aset rest u v w]

theorem alookup_eq_none {α : Type} :
    ∀ (m : List (String × α)) (u : String), alookup m u = none ↔ u ∉ keys m
  | [], u => by simp [alookup, keys]
  | (k, v) :: rest, u => by
    by_cases hk : k = u
    · subst hk
      simp [alookup, keys]
    · have hne : u ≠ k := fun h => hk h.symm
      simp [alookup, keys, hk, hne, alookup_eq_none rest u]

theorem keys_aset {α : Type} :
    ∀ (m : List (String × α)) (u : String) (v : α),
      keys (aset m u v) = if u ∈ keys m then keys m else keys m ++ [u]
  | [], u, v => by simp [aset, keys]
  | (k, x) :: rest, u, v => by
    by_cases hk : k = u
    · subst hk
      simp [aset, keys]
    · have hne : u ≠ k := fun h => hk h.symm
      have hih := keys_aset rest u v
      simp only [aset, if_neg hk, keys, List.map_cons] at hih ⊢
      rw [hih]
      by_cases hmem : u ∈ List.map (fun p => p.1) rest
      · simp [hmem, hne]
      · simp [hmem, hne]

theorem nodup_keys_aset {α : Type} (m : List (String × α)) (u : String) (v : α)
    (h : (keys m).Nodup) : (keys (aset m u v)).Nodup := by
  rw [keys_aset]
  by_cases hmem : u ∈ keys m
  · rw [if_pos hmem]
    exact h
  · rw [if_neg hmem]
    simp [List.nodup_append, h, hmem]

/-! ## Claim C10: entries of the per-category activity maps -/

theorem recordFoldAux_inv :
    ∀ (recs : List (String × String)) (m : List (String × CatRecord)),
      (∀ u r, alookup m u = some r → 1 ≤ r.count ∧ r.last.isSome = true) →
      ∀ u r, alookup (recs.foldl (fun m p => addRecord m p.1 p.2) m) u = some r →
        1 ≤ r.count ∧ r.last.isSome = true
  | [], _, hm, u, r, h => hm u r h
  | (login, ts) :: rest, m, hm, u, r, h => by
    refine recordFoldAux_inv rest (addRecord m login ts) ?_ u r h
    intro w rr hw
    simp only [addRecord] at hw
    rw [alookup_aset] at hw
    by_cases hl : login = w
    · rw [if_pos hl] at hw
      injection hw with hw
      subst hw
      exact ⟨Nat.succ_le_succ (Nat.zero_le _), later_isSome_right _ _⟩
    · rw [if_neg hl] at hw
      exact hm w rr hw

/-- C10: every entry present in a map returned by get_commit_activity,
get_issue_activity or get_pr_activity has a count of at least one and a
present last timestamp; zero-count or absent-timestamp entries never
occur. -/
theorem activity_map_entry_invariant (edges nodes : List (Option String × String))
    (u : String) :
    (∀ r, alookup (get_commit_activity edges) u = some r →
      1 ≤ r.count ∧ r.last.isSome = true) ∧
    (∀ r, alookup (get_issue_activity nodes) u = some r →
      1 ≤ r.count ∧ r.last.isSome = true) ∧
    (∀ r, alookup (get_pr_activity nodes) u = some r →
      1 ≤ r.count ∧ r.last.isSome = true) := by
  have hbase : ∀ u r, alookup ([] : List (String × CatRecord)) u = some r →
      1 ≤ r.count ∧ r.last.isSome = true := by
    intro u r h
    simp [alookup] at h
  exact ⟨fun r h => recordFoldAux_inv (attributed edges) [] hbase u r h,
    fun r h => recordFoldAux_inv (authored nodes) [] hbase u r h,
    fun r h => recordFoldAux_inv (authored nodes) [] hbase u r h⟩

/-- Witness: one attributed commit for alice gives an entry with count one
and a present timestamp. -/
theorem activity_map_entry_invariant_witness :
    alookup (get_commit_activity [(some "alice", "2024-01-01T00:00:00Z")]) "alice" =
      some ⟨1, some "2024-01-01T00:00:00Z"⟩ ∧
    (1 ≤ (⟨1, some "2024-01-01T00:00:00Z"⟩ : CatRecord).count ∧
      (⟨1, some "2024-01-01T00:00:00Z"⟩ : CatRecord).last.isSome = true) :=
  ⟨rfl,
   (activity_map_entry_invariant [(some "alice", "2024-01-01T00:00:00Z")] [] "alice").1
     ⟨1, some "2024-01-01T00:00:00Z"⟩ rfl⟩

/-! ## Claim C3: status classification of save_to_csv -/

theorem flatMap_no_Z :
    ∀ l : List Char, 'Z' ∉ l →
      (l.flatMap (fun c => if c = 'Z' then "+00:00".data else [c])) = l
  | [], _ => rfl
  | c :: cs, h => by
    have hc : c ≠ 'Z' := fun hh => h (hh ▸ List.mem_cons_self c cs)
    simp [hc, flatMap_no_Z cs (fun hm => h (List.mem_cons_of_mem c hm))]

theorem replaceZ_append_Z (b : String) (h : 'Z' ∉ b.data) :
    replaceZ (b ++ "Z") = b ++ "+00:00" := by
  unfold replaceZ
  rw [String.data_append, List.flatMap_append, flatMap_no_Z b.data h]
  have hz : ((("Z" : String).data).flatMap
      (fun c => if c = 'Z' then "+00:00".data else [c])) = "+00:00".data := rfl
  rw [hz]
  exact string_data_inj (by rw [String.data_append])

/-- C3: an absent overall last activity classifies Inactive; a present
timestamp is parsed after the Z replacement and compared as an absolute
instant against now minus the threshold in days, with an inclusive
boundary: at or after the cutoff classifies Active, strictly before it
classifies Inactive; and on a string with a single trailing Z the
replacement of line 314 turns exactly that Z into an explicit UTC
offset. -/
theorem status_classification (now : Int) (days : Nat) (la : String) (dt : PyDateTime)
    (i : Int) (hparse : fromisoformat (replaceZ la) = some dt)
    (hinst : toInstant dt = some i) :
    classifyRow (cutoffOf now days) none = Except.ok ("N/A", "Inactive") ∧
    (cutoffOf now days ≤ i →
      classifyRow (cutoffOf now days) (some la) = Except.ok (la, "Active")) ∧
    (i < cutoffOf now days →
      classifyRow (cutoffOf now days) (some la) = Except.ok (la, "Inactive")) ∧
    (∀ b : String, 'Z' ∉ b.data → replaceZ (b ++ "Z") = b ++ "+00:00") := by
  have hla : la ≠ "" := by
    intro heq
    rw [heq] at hparse
    have hnone : fromisoformat (replaceZ "") = none := rfl
    rw [hnone] at hparse
    cases hparse
  refine ⟨rfl, ?_, ?_, fun b hb => replaceZ_append_Z b hb⟩
  · intro hle
    simp [classifyRow, hla, hparse, hinst, hle]
  · intro hlt
    have hnot : ¬ cutoffOf now days ≤ i := by omega
    simp [classifyRow, hla, hparse, hinst, hnot]

/-- Witness: with a 60 day threshold and now 2024-03-01T00:00:00Z, the
last activity 2024-01-01T00:00:00Z sits exactly on the cutoff and
classifies Active. -/
theorem status_classification_witness :
    fromisoformat (replaceZ "2024-01-01T00:00:00Z") =
      some ⟨1704067200, some 0⟩ ∧
    toInstant ⟨1704067200, some 0⟩ = some 1704067200 ∧
    (cutoffOf 1709251200 60 ≤ 1704067200 →
      classifyRow (cutoffOf 1709251200 60) (some "2024-01-01T00:00:00Z") =
        Except.ok ("2024-01-01T00:00:00Z", "Active")) :=
  ⟨by decide, by decide,
   (status_classification 1709251200 60 "2024-01-01T00:00:00Z"
      ⟨1704067200, some 0⟩ 1704067200 (by decide) (by decide)).2.1⟩

/-! ## Claim C1: additivity of the commit merge across batches -/

theorem addRecord_eq (m : List (String × CatRecord)) (login ts : String) :
    addRecord m login ts = aset m login (catStep (alookup m login) ts) := rfl

theorem alookup_recordFold_go :
    ∀ (recs : List (String × String)) (m : List (String × CatRecord)) (u : String),
      alookup (recs.foldl (fun m p => addRecord m p.1 p.2) m) u =
        catFold (alookup m u) (userTs u recs)
  | [], _, _ => rfl
  | (k, ts) :: rest, m, u => by
    have ih := alookup_recordFold_go rest (addRecord m k ts) u
    by_cases hk : k = u
    · subst hk
      have h1 : alookup (addRecord m k ts) k = some (catStep (alookup m k) ts) := by
        rw [addRecord_eq, alookup_aset, if_pos rfl]
      have h2 : userTs k ((k, ts) :: rest) = ts :: userTs k rest := by
        simp [userTs]
      calc alookup (((k, ts) :: rest).foldl (fun m p => addRecord m p.1 p.2) m) k
          = catFold (alookup (addRecord m k ts) k) (userTs k rest) := ih
        _ = catFold (some (catStep (alookup m k) ts)) (userTs k rest) := by rw [h1]
        _ = catFold (alookup m k) (userTs k ((k, ts) :: rest)) := by
            rw [h2]
            rfl
    · have h1 : alookup (addRecord m k ts) u = alookup m u := by
        rw [addRecord_eq, alookup_aset, if_neg hk]
      have h2 : userTs u ((k, ts) :: rest) = userTs u rest := by
        simp [userTs, hk]
      rw [h2]
      calc alookup (((k, ts) :: rest).foldl (fun m p => addRecord m p.1 p.2) m) u
          = catFold (alookup (addRecord m k ts) u) (userTs u rest) := ih
        _ = catFold (alookup m u) (userTs u rest) := by rw [h1]

theorem catFold_some :
    ∀ (l : List String) (c : Nat) (v : String),
      catFold (some ⟨c, some v⟩) l = some ⟨c + l.length, some (l.foldl pymax v)⟩
  | [], c, v => by simp [catFold]
  | t :: ts, c, v => by
    have hstep : catStep (some ⟨c, some v⟩) t = ⟨c + 1, some (pymax v t)⟩ := by
      simp [catStep, later_some_some]
    have h1 : catFold (some (⟨c, some v⟩ : CatRecord)) (t :: ts) =
        catFold (some (⟨c + 1, some (pymax v t)⟩ : CatRecord)) ts := by
      show catFold (some (catStep (some ⟨c, some v⟩) t)) ts = _
      rw [hstep]
    rw [h1, catFold_some ts (c + 1) (pymax v t)]
    have hc : c + 1 + ts.length = c + (ts.length + 1) := by omega
    simp [List.foldl_cons, List.length_cons, hc]

theorem catFold_none :
    ∀ l : List String,
      catFold none l = (trueMax l).map (fun m => (⟨l.length, some m⟩ : CatRecord))
  | [] => rfl
  | t :: ts => by
    have hstep : catStep none t = ⟨1, some t⟩ := by
      simp [catStep, later_some_some, pymax_self]
    have h1 : catFold none (t :: ts) =
        catFold (some (⟨1, some t⟩ : CatRecord)) ts := by
      show catFold (some (catStep none t)) ts = _
      rw [hstep]
    rw [h1, catFold_some ts 1 t]
    simp [trueMax, List.length_cons, Nat.add_comm]

theorem recordFold_go_nodup :
    ∀ (recs : List (String × String)) (m : List (String × CatRecord)),
      (keys m).Nodup →
      (keys (recs.foldl (fun m p => addRecord m p.1 p.2) m)).Nodup
  | [], _, h => h
  | (k, ts) :: rest, m, h =>
    recordFold_go_nodup rest (addRecord m k ts)
      (by rw [addRecord_eq]; exact nodup_keys_aset m k _ h)

theorem mergeCommitEntry_eq (acc : List (String × Summary)) (u : String) (d : CatRecord) :
    mergeCommitEntry acc u d = aset acc u (userMergeC (alookup acc u) d) := rfl

theorem alookup_mergeCommitFeed_none :
    ∀ (feed : List (String × CatRecord)) (acc : List (String × Summary)) (u : String),
      alookup feed u = none →
      alookup (mergeCommitFeed acc feed) u = alookup acc u
  | [], _, _, _ => rfl
  | (k, d) :: rest, acc, u, h => by
    have hk : k ≠ u := by
      intro hh
      subst hh
      simp [alookup] at h
    have hrest : alookup rest u = none := by
      simpa [alookup, hk] using h
    calc alookup (mergeCommitFeed acc ((k, d) :: rest)) u
        = alookup (mergeCommitFeed (mergeCommitEntry acc k d) rest) u := rfl
      _ = alookup (mergeCommitEntry acc k d) u :=
          alookup_mergeCommitFeed_none rest (mergeCommitEntry acc k d) u hrest
      _ = alookup acc u := by rw [mergeCommitEntry_eq, alookup_aset, if_neg hk]

theorem alookup_mergeCommitFeed_some :
    ∀ (feed : List (String × CatRecord)) (acc : List (String × Summary)) (u : String)
      (d : CatRecord), (keys feed).Nodup → alookup feed u = some d →
      alookup (mergeCommitFeed acc feed) u = some (userMergeC (alookup acc u) d)
  | [], _, u, d, _, h => by simp [alookup] at h
  | (k, d0) :: rest, acc, u, d, hnd, h => by
    have hnd0 : k ∉ keys rest ∧ (keys rest).Nodup := List.nodup_cons.mp hnd
    by_cases hk : k = u
    · subst hk
      have hd : d0 = d := by
        simpa [alookup] using h
      subst hd
      have hrest : alookup rest k = none := (alookup_eq_none rest k).mpr hnd0.1
      calc alookup (mergeCommitFeed acc ((k, d0) :: rest)) k
          = alookup (mergeCommitFeed (mergeCommitEntry acc k d0) rest) k := rfl
        _ = alookup (mergeCommitEntry acc k d0) k :=
            alookup_mergeCommitFeed_none rest (mergeCommitEntry acc k d0) k hrest
        _ = some (userMergeC (alookup acc k) d0) := by
            rw [mergeCommitEntry_eq, alookup_aset, if_pos rfl]
    · have hrest : alookup rest u = some d := by
        simpa [alookup, hk] using h
      calc alookup (mergeCommitFeed acc ((k, d0) :: rest)) u
          = alookup (mergeCommitFeed (mergeCommitEntry acc k d0) rest) u := rfl
        _ = some (userMergeC (alookup (mergeCommitEntry acc k d0) u) d) :=
            alookup_mergeCommitFeed_some rest (mergeCommitEntry acc k d0) u d hnd0.2 hrest
        _ = some (userMergeC (alookup acc u) d) := by
            rw [mergeCommitEntry_eq, alookup_aset, if_neg hk]

theorem alookup_collectCommits_go :
    ∀ (batches : List (List (Option String × String))) (acc : List (String × Summary))
      (u : String),
      alookup (batches.foldl
        (fun acc edges => mergeCommitFeed acc (get_commit_activity edges)) acc) u =
      batchFoldU (alookup acc u)
        (batches.map (fun edges => catFold none (userTs u (attributed edges))))
  | [], _, _ => rfl
  | edges :: rest, acc, u => by
    have hfeed : alookup (get_commit_activity edges) u =
        catFold none (userTs u (attributed edges)) :=
      alookup_recordFold_go (attributed edges) [] u
    have hnd : (keys (get_commit_activity edges)).Nodup :=
      recordFold_go_nodup (attributed edges) [] (by simp [keys])
    have ih := alookup_collectCommits_go rest
      (mergeCommitFeed acc (get_commit_activity edges)) u
    calc alookup ((edges :: rest).foldl
          (fun acc edges => mergeCommitFeed acc (get_commit_activity edges)) acc) u
        = batchFoldU (alookup (mergeCommitFeed acc (get_commit_activity edges)) u)
            (rest.map (fun edges => catFold none (userTs u (attributed edges)))) := ih
      _ = batchFoldU (alookup acc u)
            ((edges :: rest).map
              (fun edges => catFold none (userTs u (attributed edges)))) := by
          cases hcase : catFold none (userTs u (attributed edges)) with
          | none =>
            rw [alookup_mergeCommitFeed_none (get_commit_activity edges) acc u
              (by rw [hfeed, hcase])]
            simp [batchFoldU, List.map_cons, hcase]
          | some dd =>
            rw [alookup_mergeCommitFeed_some (get_commit_activity edges) acc u dd hnd
              (by rw [hfeed, hcase])]
            simp [batchFoldU, List.map_cons, hcase]

theorem foldl_pymax_init :
    ∀ (l : List String) (a b : String),
      l.foldl pymax (pymax a b) = pymax a (l.foldl pymax b)
  | [], _, _ => rfl
  | x :: l, a, b => by
    rw [List.foldl_cons, List.foldl_cons, pymax_assoc, foldl_pymax_init l a (pymax b x)]

theorem batchFoldU_some_state :
    ∀ (lists : List (List String)) (c : Nat) (v : String),
      batchFoldU (some (commitSummary c v)) (lists.map (fun l => catFold none l)) =
        some (commitSummary (c + lists.flatten.length) (lists.flatten.foldl pymax v))
  | [], c, v => by simp [batchFoldU]
  | l :: rest, c, v => by
    cases l with
    | nil =>
      simp only [List.map_cons]
      have h0 : catFold none ([] : List String) = none := rfl
      rw [h0]
      have hbf : batchFoldU (some (commitSummary c v))
          (none :: rest.map (fun l => catFold none l)) =
          batchFoldU (some (commitSummary c v)) (rest.map (fun l => catFold none l)) := rfl
      rw [hbf, batchFoldU_some_state rest c v]
      simp
    | cons t ts =>
      simp only [List.map_cons]
      have h1 : catFold none (t :: ts) =
          some ⟨(t :: ts).length, some (ts.foldl pymax t)⟩ := by
        rw [catFold_none]
        rfl
      rw [h1]
      have hstep : batchFoldU (some (commitSummary c v))
          (some (⟨(t :: ts).length, some (ts.foldl pymax t)⟩ : CatRecord) ::
            rest.map (fun l => catFold none l)) =
          batchFoldU (some (userMergeC (some (commitSummary c v))
              ⟨(t :: ts).length, some (ts.foldl pymax t)⟩))
            (rest.map (fun l => catFold none l)) := rfl
      rw [hstep]
      have hmerge : userMergeC (some (commitSummary c v))
          (⟨(t :: ts).length, some (ts.foldl pymax t)⟩ : CatRecord) =
          commitSummary (c + (t :: ts).length) (pymax v (ts.foldl pymax t)) := by
        simp [userMergeC, commitSummary, later_some_some]
      rw [hmerge, batchFoldU_some_state rest (c + (t :: ts).length)
        (pymax v (ts.foldl pymax t))]
      have hlen : ((t :: ts) :: rest).flatten.length =
          (t :: ts).length + rest.flatten.length := by
        rw [List.flatten_cons, List.length_append]
      have hfold : (((t :: ts) :: rest).flatten).foldl pymax v =
          rest.flatten.foldl pymax (pymax v (ts.foldl pymax t)) := by
        rw [List.flatten_cons, List.foldl_append, List.foldl_cons, foldl_pymax_init]
      rw [hlen, hfold, Nat.add_assoc]

theorem batchFoldU_none_state :
    ∀ lists : List (List String),
      batchFoldU none (lists.map (fun l => catFold none l)) =
        (trueMax lists.flatten).map (fun m => commitSummary lists.flatten.length m)
  | [] => rfl
  | l :: rest => by
    cases l with
    | nil =>
      simp only [List.map_cons]
      have h0 : catFold none ([] : List String) = none := rfl
      rw [h0]
      have hbf : batchFoldU none (none :: rest.map (fun l => catFold none l)) =
          batchFoldU none (rest.map (fun l => catFold none l)) := rfl
      rw [hbf, batchFoldU_none_state rest]
      simp
    | cons t ts =>
      simp only [List.map_cons]
      have h1 : catFold none (t :: ts) =
          some ⟨(t :: ts).length, some (ts.foldl pymax t)⟩ := by
        rw [catFold_none]
        rfl
      rw [h1]
      have hstep : batchFoldU none
          (some (⟨(t :: ts).length, some (ts.foldl pymax t)⟩ : CatRecord) ::
            rest.map (fun l => catFold none l)) =
          batchFoldU (some (userMergeC none
              ⟨(t :: ts).length, some (ts.foldl pymax t)⟩))
            (rest.map (fun l => catFold none l)) := rfl
      rw [hstep]
      have hmerge : userMergeC none
          (⟨(t :: ts).length, some (ts.foldl pymax t)⟩ : CatRecord) =
          commitSummary (t :: ts).length (ts.foldl pymax t) := by
        simp [userMergeC, commitSummary, later, emptySummary]
      rw [hmerge, batchFoldU_some_state rest (t :: ts).length (ts.foldl pymax t)]
      have htm : trueMax (((t :: ts) :: rest).flatten) =
          some (rest.flatten.foldl pymax (ts.foldl pymax t)) := by
        show trueMax (t :: (ts ++ rest.flatten)) = _
        simp [trueMax, List.foldl_append]
      have hlen : ((t :: ts) :: rest).flatten.length =
          (t :: ts).length + rest.flatten.length := by
        rw [List.flatten_cons, List.length_append]
      rw [htm, hlen]
      simp

theorem userTs_attributed_flatten :
    ∀ (batches : List (List (Option String × String))) (u : String),
      userTs u (attributed batches.flatten) =
        (batches.map (fun edges => userTs u (attributed edges))).flatten
  | [], _ => rfl
  | edges :: rest, u => by
    have ih := userTs_attributed_flatten rest u
    have h1 : attributed ((edges :: rest).flatten) =
        attributed edges ++ attributed rest.flatten := by
      simp [attributed, List.filterMap_append]
    have h2 : userTs u (attributed edges ++ attributed rest.flatten) =
        userTs u (attributed edges) ++ userTs u (attributed rest.flatten) := by
      simp [userTs, List.filter_append]
    rw [h1, h2, ih]
    simp

theorem pyStrLe_refl (a : String) : pyStrLe a a = true := by
  simp [pyStrLe, pyStrLt_irrefl]

theorem foldl_pymax_le :
    ∀ (l : List String) (a : String), pyStrLe a (l.foldl pymax a) = true
  | [], a => pyStrLe_refl a
  | x :: l, a => by
    rw [List.foldl_cons]
    exact pyStrLe_trans (pyStrLe_left_pymax a x) (foldl_pymax_le l (pymax a x))

theorem foldl_pymax_le_mem :
    ∀ (l : List String) (a x : String), x ∈ l → pyStrLe x (l.foldl pymax a) = true
  | [], _, x, hx => absurd hx (List.not_mem_nil x)
  | y :: l, a, x, hx => by
    rw [List.foldl_cons]
    rcases List.mem_cons.mp hx with rfl | hmem
    · exact pyStrLe_trans (pyStrLe_right_pymax a x) (foldl_pymax_le l (pymax a x))
    · exact foldl_pymax_le_mem l (pymax a y) x hmem

theorem foldl_pymax_mem :
    ∀ (l : List String) (a : String), l.foldl pymax a = a ∨ l.foldl pymax a ∈ l
  | [], _ => Or.inl rfl
  | x :: l, a => by
    rw [List.foldl_cons]
    rcases foldl_pymax_mem l (pymax a x) with h | h
    · rcases pymax_cases a x with h2 | h2
      · left; rw [h, h2]
      · right; rw [h, h2]; exact List.mem_cons_self x l
    · right; exact List.mem_cons_of_mem x h

theorem trueMax_mem : ∀ (l : List String) (m : String), trueMax l = some m → m ∈ l
  | [], _, h => by cases h
  | t :: ts, m, h => by
    simp only [trueMax] at h
    injection h with h
    subst h
    rcases foldl_pymax_mem ts t with h | h
    · rw [h]; exact List.mem_cons_self t ts
    · exact List.mem_cons_of_mem t h

theorem trueMax_ge :
    ∀ (l : List String) (m : String), trueMax l = some m →
      ∀ x ∈ l, pyStrLe x m = true
  | [], _, h => by cases h
  | t :: ts, m, h => by
    simp only [trueMax] at h
    injection h with h
    subst h
    intro x hx
    rcases List.mem_cons.mp hx with rfl | hmem
    · exact foldl_pymax_le ts x
    · exact foldl_pymax_le_mem ts t x hmem

/-- C1: for every user, distributing the commit records across any
sequence of per-branch merge steps (each branch itself accumulated page by
page) produces a summary whose commit count is exactly the number N of
that users records, and whose last_commit is the true maximum of all
supplied timestamps; the summary exists exactly when at least one record
was observed (lazy creation on the first record), and trueMax really is
the maximum: a member of the list that bounds every element. -/
theorem merge_into_additive (batches : List (List (Option String × String)))
    (u : String) :
    alookup (collectCommits batches) u =
      (trueMax (userTs u (attributed batches.flatten))).map
        (fun m => commitSummary (userTs u (attributed batches.flatten)).length m) ∧
    (∀ m, trueMax (userTs u (attributed batches.flatten)) = some m →
      m ∈ userTs u (attributed batches.flatten) ∧
      ∀ x ∈ userTs u (attributed batches.flatten), pyStrLe x m = true) := by
  constructor
  · unfold collectCommits
    have h1 := alookup_collectCommits_go batches [] u
    have h0 : alookup ([] : List (String × Summary)) u = none := rfl
    rw [h0] at h1
    rw [h1]
    have h2 := batchFoldU_none_state (batches.map (fun e => userTs u (attributed e)))
    rw [List.map_map] at h2
    have hcomp : ((fun l => catFold none l) ∘ (fun e => userTs u (attributed e))) =
        (fun edges => catFold none (userTs u (attributed edges))) := rfl
    rw [hcomp] at h2
    rw [h2, ← userTs_attributed_flatten batches u]
  · intro m hm
    exact ⟨trueMax_mem _ m hm, trueMax_ge _ m hm⟩

/-- Witness: two batches for alice, with one unattributed record skipped:
count 2 and maximum timestamp b. -/
theorem merge_into_additive_witness :
    trueMax (userTs "alice" (attributed
      ([[(some "alice", "b")], [(some "alice", "a"), (none, "z")]] :
        List (List (Option String × String))).flatten)) = some "b" ∧
    "b" ∈ userTs "alice" (attributed
      ([[(some "alice", "b")], [(some "alice", "a"), (none, "z")]] :
        List (List (Option String × String))).flatten) ∧
    ∀ x ∈ userTs "alice" (attributed
      ([[(some "alice", "b")], [(some "alice", "a"), (none, "z")]] :
        List (List (Option String × String))).flatten), pyStrLe x "b" = true :=
  ⟨by decide,
   ((merge_into_additive
      [[(some "alice", "b")], [(some "alice", "a"), (none, "z")]] "alice").2
      "b" (by decide)).1,
   ((merge_into_additive
      [[(some "alice", "b")], [(some "alice", "a"), (none, "z")]] "alice").2
      "b" (by decide)).2⟩

/-! ## Claim C9: report rows of save_to_csv -/

instance : IsTrans String (fun a b => pyStrLe a b = true) :=
  ⟨fun _ _ _ => pyStrLe_trans⟩

instance : IsTotal String (fun a b => pyStrLe a b = true) :=
  ⟨fun a b => by
    by_cases h : pyStrLt b a = true
    · right
      simp [pyStrLe, pyStrLt_asymm h]
    · left
      simp [pyStrLe, eq_false_of_ne_true h]⟩

theorem mkRow_user {cut : Int} {act : List (String × Summary)} {u : String} {r : Row}
    (h : mkRow cut act u = Except.ok r) : r.user = u := by
  simp only [mkRow] at h
  split at h
  · simp at h
  · injection h with h
    rw [← h]

theorem mkRow_absent {cut : Int} {act : List (String × Summary)} {u : String}
    (h : alookup act u = none) :
    mkRow cut act u = Except.ok ⟨u, 0, 0, 0, "N/A", "Inactive"⟩ := by
  simp [mkRow, h, classifyRow, later]

theorem rowsFor_ok :
    ∀ (cut : Int) (act : List (String × Summary)) (l : List String) (rows : List Row),
      rowsFor cut act l = Except.ok rows →
      rows.map Row.user = l ∧
      (∀ row ∈ rows, alookup act row.user = none →
        row.commits = 0 ∧ row.issues = 0 ∧ row.prs = 0 ∧
        row.lastActivity = "N/A" ∧ row.status = "Inactive")
  | _, _, [], rows, h => by
    injection h with h
    subst h
    exact ⟨rfl, fun row hrow _ => absurd hrow (List.not_mem_nil row)⟩
  | cut, act, u :: rest, rows, h => by
    cases hm : mkRow cut act u with
    | error e => simp [rowsFor, hm] at h
    | ok r =>
      cases hr : rowsFor cut act rest with
      | error e => simp [rowsFor, hm, hr] at h
      | ok rs =>
        simp only [rowsFor, hm, hr] at h
        injection h with h
        subst h
        obtain ⟨ih1, ih2⟩ := rowsFor_ok cut act rest rs hr
        constructor
        · simp [List.map_cons, ih1, mkRow_user hm]
        · intro row hrow habs
          rcases List.mem_cons.mp hrow with rfl | hmem
          · have hu := mkRow_user hm
            rw [hu] at habs
            rw [mkRow_absent habs] at hm
            injection hm with hm
            rw [← hm]
            exact ⟨rfl, rfl, rfl, rfl, rfl⟩
          · exact ih2 row hmem habs

/-- C9: for each repository the report holds exactly one row per roster
member, iterated in the Python ascending order of login: the row users are
the sorted roster (a permutation of the roster, ascending, without
duplicates when the roster has none); a member with no recorded activity
gets all-zero counts with N/A and Inactive; and every row belongs to a
roster member, so activity of a login outside the roster produces no
row. -/
theorem report_rows_roster (cut : Int) (activity : List (String × Summary))
    (roster : List String) (rows : List Row)
    (h : save_rows cut activity roster = Except.ok rows) :
    rows.map Row.user = List.insertionSort (fun a b => pyStrLe a b = true) roster ∧
    (rows.map Row.user).Perm roster ∧
    List.Sorted (fun a b => pyStrLe a b = true) (rows.map Row.user) ∧
    (roster.Nodup → (rows.map Row.user).Nodup) ∧
    (∀ row ∈ rows, alookup activity row.user = none →
      row.commits = 0 ∧ row.issues = 0 ∧ row.prs = 0 ∧
      row.lastActivity = "N/A" ∧ row.status = "Inactive") ∧
    (∀ row ∈ rows, row.user ∈ roster) := by
  obtain ⟨h1, h2⟩ := rowsFor_ok cut activity
    (List.insertionSort (fun a b => pyStrLe a b = true) roster) rows h
  have hperm : (rows.map Row.user).Perm roster := by
    rw [h1]
    exact List.perm_insertionSort (fun a b => pyStrLe a b = true) roster
  refine ⟨h1, hperm, ?_, ?_, h2, ?_⟩
  · rw [h1]
    exact List.sorted_insertionSort (fun a b => pyStrLe a b = true) roster
  · intro hnd
    exact hperm.nodup_iff.mpr hnd
  · intro row hrow
    exact hperm.mem_iff.mp (List.mem_map_of_mem Row.user hrow)

/-- Witness: roster of bob and alice with no recorded activity gives two
rows in ascending login order, both all-zero and Inactive. -/
theorem report_rows_roster_witness :
    save_rows 0 [] ["bob", "alice"] =
      Except.ok [⟨"alice", 0, 0, 0, "N/A", "Inactive"⟩,
                 ⟨"bob", 0, 0, 0, "N/A", "Inactive"⟩] ∧
    (([⟨"alice", 0, 0, 0, "N/A", "Inactive"⟩,
       ⟨"bob", 0, 0, 0, "N/A", "Inactive"⟩] : List Row).map Row.user).Perm
      ["bob", "alice"] :=
  ⟨rfl,
   (report_rows_roster 0 [] ["bob", "alice"]
      [⟨"alice", 0, 0, 0, "N/A", "Inactive"⟩,
       ⟨"bob", 0, 0, 0, "N/A", "Inactive"⟩] rfl).2.1⟩
